import Mathlib

/-!
Verification development for the folksonomy plugin (src/folksonomy.py).

The file shallowly embeds the computational core of the plugin: the tag
index built by create_folksonomy, the triangular co-occurrence table built
by create_folksonomy_table, the related-tag and related-story rankings,
and the tag-cloud bucketing.  File-system walking, regex extraction of the
tags line, HTML rendering and the pickle cache are external collaborators;
the corpus is therefore modelled as a list of (entry location, optional
split tag list) pairs, and clouds are modelled as the ordered sequence of
(tag, count, css size class) triples from which the markup string is
assembled.  Python dictionaries are modelled as insertion-ordered
association lists with unique keys; the Python 2 set intersection
list(set(x).intersection(y)) is modelled up to element order (only
membership and size of these lists are ever consumed downstream).
-/

/-- Boolean lexicographic less-or-equal on character lists; models the
Python byte-wise string comparison used by list.sort on strings. -/
def strLeB : List Char → List Char → Bool
  | [], _ => true
  | _ :: _, [] => false
  | a :: as, b :: bs => if a < b then true else if a = b then strLeB as bs else false

/-- Boolean lexicographic strict less-than on character lists. -/
def strLtB : List Char → List Char → Bool
  | _, [] => false
  | [], _ :: _ => true
  | a :: as, b :: bs => if a < b then true else if a = b then strLtB as bs else false

/-- String order used for sorting tag lists, as Python compares strings. -/
def pyStrLe (a b : String) : Prop := strLeB a.data b.data = true

/-- Strict string order, as Python compares strings. -/
def pyStrLt (a b : String) : Prop := strLtB a.data b.data = true

instance (a b : String) : Decidable (pyStrLe a b) := by
  unfold pyStrLe
  infer_instance

instance (a b : String) : Decidable (pyStrLt a b) := by
  unfold pyStrLt
  infer_instance

theorem strLeB_total : ∀ x y, strLeB x y = true ∨ strLeB y x = true := by
  intro x
  induction x with
  | nil => intro y; left; rfl
  | cons a as ih =>
    intro y
    cases y with
    | nil => right; rfl
    | cons b bs =>
      rcases lt_trichotomy a b with h | h | h
      · left; simp [strLeB, h]
      · subst h
        rcases ih bs with h2 | h2
        · left; simp [strLeB, h2]
        · right; simp [strLeB, h2]
      · right; simp [strLeB, h]

theorem strLeB_trans :
    ∀ x y z, strLeB x y = true → strLeB y z = true → strLeB x z = true := by
  intro x
  induction x with
  | nil => intro y z _ _; rfl
  | cons a as ih =>
    intro y z hxy hyz
    cases y with
    | nil => simp [strLeB] at hxy
    | cons b bs =>
      cases z with
      | nil => simp [strLeB] at hyz
      | cons c cs =>
        simp only [strLeB] at hxy hyz ⊢
        by_cases h1 : a < b
        · by_cases h2 : b < c
          · simp [lt_trans h1 h2]
          · by_cases h3 : b = c
            · subst h3; simp [h1]
            · simp [h2, h3] at hyz
        · by_cases h1' : a = b
          · subst h1'
            by_cases h2 : a < c
            · simp [h2]
            · by_cases h3 : a = c
              · subst h3
                simp only [if_neg h1, if_pos rfl] at hxy hyz ⊢
                exact ih bs cs hxy hyz
              · simp [h2, h3] at hyz
          · simp [h1, h1'] at hxy

instance : IsTotal String pyStrLe := ⟨fun a b => strLeB_total a.data b.data⟩

instance : IsTrans String pyStrLe :=
  ⟨fun a b c hab hbc => strLeB_trans a.data b.data c.data hab hbc⟩

/-- Sorting of a list of tag strings, modelling taglist.sort() in Python. -/
def sortStrings (l : List String) : List String := List.insertionSort pyStrLe l

/-- Descending order on (count, tag) pairs: a may come before b exactly when
b is tuple-below a in the Python tuple order.  This models
relationship.sort(reverse=True) on (int, str) tuples. -/
def pairDesc (a b : Nat × String) : Prop :=
  b.1 < a.1 ∨ (b.1 = a.1 ∧ pyStrLe b.2 a.2)

instance (a b : Nat × String) : Decidable (pairDesc a b) := by
  unfold pairDesc
  infer_instance

instance : IsTotal (Nat × String) pairDesc := by
  constructor
  intro a b
  rcases Nat.lt_trichotomy a.1 b.1 with h | h | h
  · right; left; exact h
  · rcases strLeB_total a.2.data b.2.data with h2 | h2
    · right; right; exact ⟨h, h2⟩
    · left; right; exact ⟨h.symm, h2⟩
  · left; left; exact h

instance : IsTrans (Nat × String) pairDesc := by
  constructor
  intro a b c hab hbc
  rcases hab with h1 | ⟨h1, h1'⟩
  · rcases hbc with h2 | ⟨h2, h2'⟩
    · exact Or.inl (lt_trans h2 h1)
    · exact Or.inl (h2 ▸ h1)
  · rcases hbc with h2 | ⟨h2, h2'⟩
    · exact Or.inl (h1 ▸ h2)
    · exact Or.inr ⟨h2.trans h1, strLeB_trans _ _ _ h2' h1'⟩

/-- Model of related.sort(reverse=True) on lists of (count, tag) pairs. -/
def sortPairsDesc (l : List (Nat × String)) : List (Nat × String) :=
  List.insertionSort pairDesc l

/-- Boolean lexicographic strict order on lists of strings; models the
Python comparison of two lists of entry locations inside a tuple sort. -/
def listStrLtB : List String → List String → Bool
  | _, [] => false
  | [], _ :: _ => true
  | a :: as, b :: bs => if pyStrLt a b then true else if a = b then listStrLtB as bs else false

/-- Descending order on (count, entries, tag) triples, modelling
relationship.sort(reverse=True) on (int, list, str) tuples inside
the helper that ranks related stories for a single tag. -/
def tripleDesc (a b : Nat × List String × String) : Prop :=
  b.1 < a.1 ∨ (b.1 = a.1 ∧
    (listStrLtB b.2.1 a.2.1 = true ∨ (b.2.1 = a.2.1 ∧ pyStrLe b.2.2 a.2.2)))

instance (a b : Nat × List String × String) : Decidable (tripleDesc a b) := by
  unfold tripleDesc
  infer_instance

/-- Model of relationship.sort(reverse=True) on (count, entries, tag) triples. -/
def sortTriplesDesc (l : List (Nat × List String × String)) :
    List (Nat × List String × String) :=
  List.insertionSort tripleDesc l

/-- A tag-to-entries dictionary (the Python entrymap), modelled as an
insertion-ordered association list. -/
abbrev EntryMap := List (String × List String)

/-- Reading entrymap[tag], with the empty list for a missing key (every
read in the source happens on a present key or is guarded). -/
def lookupEM : EntryMap → String → List String
  | [], _ => []
  | p :: ps, t => if p.1 = t then p.2 else lookupEM ps t

/-- Appending a location to the bucket of the first matching key, modelling
the in-place entrymap[tag].append(entry_location). -/
def updateBucket : EntryMap → String → String → EntryMap
  | [], _, _ => []
  | p :: ps, tag, loc =>
      if p.1 = tag then (p.1, p.2 ++ [loc]) :: ps else p :: updateBucket ps tag loc

/-- Model of the two source lines: if the tag key is absent it is first
bound to an empty bucket, then the entry location is appended to it. -/
def addEntry (em : EntryMap) (tag loc : String) : EntryMap :=
  updateBucket (if em.any (fun p => p.1 == tag) then em else em ++ [(tag, [])]) tag loc

/-- Model of list(set(xs).intersection(set(ys))) up to element order:
the distinct elements of xs that also occur in ys. -/
def pySetInter (xs ys : List String) : List String :=
  xs.dedup.filter (fun e => e ∈ ys)

/-- Sorted list of the distinct tags of the index, modelling
sortedtags = entrymap.keys(); sortedtags.sort(). -/
def sortedTagsOf (em : EntryMap) : List String := sortStrings (em.map Prod.fst)

/-- One cell of the triangular folksonomy table, for positions x >= y:
the full bucket on the diagonal, the set intersection of the two buckets
off the diagonal (create_folksonomy_table, inner loop body). -/
def tableCell (em : EntryMap) (taglist : List String) (x y : Nat) : List String :=
  if x = y then lookupEM em (taglist.getD x "")
  else pySetInter (lookupEM em (taglist.getD x "")) (lookupEM em (taglist.getD y ""))

/-- Model of folksonomytable[x].append(v) on the list-of-rows state. -/
def tableAppendAt (t : List (List (List String))) (x : Nat) (v : List String) :
    List (List (List String)) :=
  t.set x (t.getD x [] ++ [v])

/-- Inner loop of create_folksonomy_table: for x in range(y, n) the cell
for (x, y) is appended to row x. -/
def columnPass (cell : Nat → Nat → List String) (n y : Nat)
    (t : List (List (List String))) : List (List (List String)) :=
  (List.range' y (n - y)).foldl (fun t x => tableAppendAt t x (cell x y)) t

/-- Model of create_folksonomy_table: starting from a list of n empty rows,
the outer loop runs y over range(n) and the inner loop appends the
triangular cells, so that row x ends as [cell x 0, ..., cell x x]. -/
def create_folksonomy_table (em : EntryMap) : List (List (List String)) :=
  (List.range (sortedTagsOf em).length).foldl
    (fun t y => columnPass (tableCell em (sortedTagsOf em)) (sortedTagsOf em).length y t)
    (List.replicate (sortedTagsOf em).length [])

/-- The triangular lookup used by both single-tag helpers: the cell is read
at folksonomy[position][tagindex] when tagindex <= position and at
folksonomy[tagindex][position] otherwise. -/
def sharedLookup (folksonomy : List (List (List String))) (tagindex position : Nat) :
    List String :=
  if tagindex ≤ position then (folksonomy.getD position []).getD tagindex []
  else (folksonomy.getD tagindex []).getD position []

/-- First index of a string in a list, modelling the Python list.index call
(its argument is always a member at every call site). -/
def pyIndex (a : String) : List String → Nat
  | [] => 0
  | b :: bs => if b = a then 0 else pyIndex a bs + 1

/-- Model of the helper _get_related_tags(tag, data).  It returns the
sorted (sharedentries, tag) pairs together with the lines printed to
stderr: an absent tag is reported and yields an empty result.  The loop
over sortedtags appending the nonempty cells is written as a filterMap. -/
def _get_related_tags (tag : String) (sortedtags : List String)
    (folksonomy : List (List (List String))) : List (Nat × String) × List String :=
  if tag ∈ sortedtags then
    let tagindex := pyIndex tag sortedtags
    let relationship := sortedtags.filterMap (fun t =>
      let position := pyIndex t sortedtags
      let es := sharedLookup folksonomy tagindex position
      if es ≠ [] then some (es.length, t) else none)
    (sortPairsDesc relationship, [])
  else ([], ["ERROR: " ++ tag ++ " not in sortedtags."])

/-- One iteration of the tag loop of get_related_tags: an ignored tag is
skipped, otherwise the single-tag ranking is concatenated onto the
accumulator (the extend is guarded by a nonemptiness test in the source,
which makes no difference to the concatenation) and the stderr lines are
carried along. -/
def relatedTagsStep (ignoretags sortedtags : List String)
    (folksonomy : List (List (List String)))
    (acc : List (Nat × String) × List String) (tag : String) :
    List (Nat × String) × List String :=
  if tag ∈ ignoretags then acc
  else
    let tmp := _get_related_tags tag sortedtags folksonomy
    if tmp.1 ≠ [] then (acc.1 ++ tmp.1, acc.2 ++ tmp.2) else (acc.1, acc.2 ++ tmp.2)

/-- Model of get_related_tags(entry, data, config): per non-ignored entry
tag the single-tag ranking is concatenated, the union is sorted descending
and only counts above 1 survive.  The first component is the ranked tag
list, the second the accumulated stderr lines. -/
def get_related_tags (entryTags ignoretags sortedtags : List String)
    (folksonomy : List (List (List String))) : List String × List String :=
  let st := entryTags.foldl (relatedTagsStep ignoretags sortedtags folksonomy) ([], [])
  (((sortPairsDesc st.1).filter (fun x => 1 < x.1)).map (fun x => x.2), st.2)

/-- Model of the helper _get_related_stories(tag, data): the sorted
(tag, sharedstories) pairs, plus the stderr lines (this helper prints
nothing; an absent tag silently yields an empty result). -/
def _get_related_stories (tag : String) (sortedtags : List String)
    (folksonomy : List (List (List String))) :
    List (String × List String) × List String :=
  if tag ∈ sortedtags then
    let tagindex := pyIndex tag sortedtags
    let relationship := sortedtags.filterMap (fun t =>
      let position := pyIndex t sortedtags
      let es := sharedLookup folksonomy tagindex position
      if es ≠ [] then some (es.length, es, t) else none)
    ((sortTriplesDesc relationship).map (fun r => (r.2.2, r.2.1)), [])
  else ([], [])

/-- Incrementing the per-story vote counter, modelling
related[story] = (related[story][0] + 1, story) with key creation. -/
def bumpVote (related : List (String × (Nat × String))) (story : String) :
    List (String × (Nat × String)) :=
  if related.any (fun p => p.1 == story) then
    related.map (fun p => if p.1 = story then (p.1, (p.2.1 + 1, p.2.2)) else p)
  else related ++ [(story, (1, story))]

/-- The vote dictionary built by the first half of get_related_stories:
for each non-ignored entry tag, every (otherTag, stories) pair whose other
tag is itself one of the entry tags contributes one vote per listed story. -/
def relatedVotes (entryTags ignoretags sortedtags : List String)
    (folksonomy : List (List (List String))) : List (String × (Nat × String)) :=
  entryTags.foldl (fun related tag =>
    if tag ∈ ignoretags then related
    else
      let tmp := (_get_related_stories tag sortedtags folksonomy).1
      if tmp ≠ [] then
        tmp.foldl (fun related relationship =>
          if relationship.1 ∉ entryTags then related
          else relationship.2.foldl (fun related story => bumpVote related story) related)
          related
      else related) []

/-- Model of get_related_stories(entry, request, data, config).  The
subject entry is given by its split tag list, its optional forced-relation
list from the related metadata, and its filename; the result is the
ordered list of entry locations rendered into the related-stories block,
or none when the source function falls through returning None.  The
forced locations are joined below the data directory; the computed
stories are the vote values sorted descending; the combined list is cut
to at most 6 entries and the subject itself is skipped while rendering. -/
def get_related_stories (entryTags : List String) (relatedMeta : Option (List String))
    (entryFilename : String) (ignoretags : List String) (datadir : String)
    (sortedtags : List String) (folksonomy : List (List (List String))) :
    Option (List String) :=
  let related := relatedVotes entryTags ignoretags sortedtags folksonomy
  let forced := match relatedMeta with
    | some forcerelated => forcerelated.map (fun location => datadir ++ "/" ++ location)
    | none => []
  if related ≠ [] then
    let vals := sortPairsDesc (related.map (fun p => p.2))
    let myentries := forced ++ vals.map (fun r => r.2)
    let myentries := myentries.take (min myentries.length 6)
    if myentries ≠ [] then
      let shown := myentries.filter (fun entry_location => entry_location ≠ entryFilename)
      if shown ≠ [] then some shown else none
    else none
  else none

/-- Css size class of one tag in the cloud, modelling the if-elif chain of
create_tagcloud: the initial value mediumTag is kept for the reserved
untagged tag and when no branch fires; otherwise the thresholds are
checked from the top downward and the first match wins. -/
def tag_size (tag : String) (count mincount maxcount distribution : Int) : String :=
  if tag ≠ "untagged" then
    if count = maxcount then "mostHugeTag"
    else if count > mincount + distribution * 5 then "hugestTag"
    else if count > mincount + distribution * 4 then "hugeTag"
    else if count > mincount + distribution * 3 then "biggestTag"
    else if count > mincount + distribution * 2 then "bigTag"
    else if count > mincount + distribution then "mediumTag"
    else if count > mincount then "smallTag"
    else if count = mincount then "smallestTag"
    else "mediumTag"
  else "mediumTag"

/-- Model of create_tagcloud(config, tagcount, mincount, maxcount).  The
distribution is the Python floor division (maxcount - mincount) / 6; the
cloud is the ordered sequence of (tag, count, size class) triples from
which the anchor markup is built, and an empty tagcount yields None. -/
def create_tagcloud (tagcount : EntryMap) (mincount maxcount : Int) :
    Option (List (String × Int × String)) :=
  if tagcount ≠ [] then
    some (tagcount.map (fun p =>
      (p.1, ((p.2.length : Int),
        tag_size p.1 (p.2.length : Int) mincount maxcount ((maxcount - mincount).fdiv 6)))))
  else none

/-- The loop of create_popular_tagcloud: the surviving buckets (count
strictly above mincount + distribution) are collected in iteration order
and a new minimum over the survivors is folded starting from maxcount. -/
def popularFold (tagcount : EntryMap) (mincount maxcount : Int) : EntryMap × Int :=
  tagcount.foldl (fun (st : EntryMap × Int) p =>
    if mincount + (maxcount - mincount).fdiv 6 < (p.2.length : Int) then
      (st.1 ++ [p], min st.2 (p.2.length : Int))
    else st) ([], maxcount)

/-- Model of create_popular_tagcloud: rebuild a cloud from the surviving
buckets with the recomputed minimum and the same maximum. -/
def create_popular_tagcloud (tagcount : EntryMap) (mincount maxcount : Int) :
    Option (List (String × Int × String)) :=
  create_tagcloud (popularFold tagcount mincount maxcount).1
    (popularFold tagcount mincount maxcount).2 maxcount

/-- One corpus item as seen by the indexing loop of create_folksonomy: the
entry location, and the split tag list when the file carries a tags line
(none models a file without one).  Extension and directory filtering and
the regex extraction happen before this point and are external. -/
abbrev CorpusItem := String × Option (List String)

/-- Processing of one corpus item by the loop body of create_folksonomy on
the state (entrymap, maxcount): each non-ignored tag of a tagged item
files the location under that tag and raises maxcount to the new bucket
size; an item without a tags line is filed under the reserved untagged
bucket (which never touches maxcount). -/
def processItem (ignoretags : List String) (st : EntryMap × Nat) (item : CorpusItem) :
    EntryMap × Nat :=
  match item.2 with
  | some tags =>
      tags.foldl (fun st tag =>
        if tag ∈ ignoretags then st
        else
          let em := addEntry st.1 tag item.1
          (em, max st.2 (lookupEM em tag).length)) st
  | none => (addEntry st.1 "untagged" item.1, st.2)

/-- The entrymap and maxcount accumulated over the whole corpus walk. -/
def buildIndex (corpus : List CorpusItem) (ignoretags : List String) : EntryMap × Nat :=
  corpus.foldl (processItem ignoretags) ([], 0)

/-- Model of min(map(len, entrymap.values())): Python min raises a
ValueError on an empty sequence, modelled by none. -/
def pyMin : List Nat → Option Nat
  | [] => none
  | x :: xs => some (xs.foldl Nat.min x)

/-- The snapshot assembled by create_folksonomy and cached by the plugin. -/
structure Folksonomy where
  entrytagmap : EntryMap
  sortedtags : List String
  folksonomy : List (List (List String))
  tagcloud : Option (List (String × Int × String))
  populartagcloud : Option (List (String × Int × String))

/-- Model of create_folksonomy(config): the corpus walk builds the
entrymap and maxcount, mincount is the minimum bucket size (none models
the uncaught ValueError raised by min on an empty entrymap), and the
snapshot packages the index, the sorted tag list, the triangular table
and the two clouds. -/
def create_folksonomy (corpus : List CorpusItem) (ignoretags : List String) :
    Option Folksonomy :=
  let st := buildIndex corpus ignoretags
  match pyMin (st.1.map (fun p => p.2.length)) with
  | none => none
  | some mincount =>
      some { entrytagmap := st.1
             sortedtags := sortedTagsOf st.1
             folksonomy := create_folksonomy_table st.1
             tagcloud := create_tagcloud st.1 (mincount : Int) (st.2 : Int)
             populartagcloud := create_popular_tagcloud st.1 (mincount : Int) (st.2 : Int) }

/-- The corpus of the spec scenario: a tagged foo,bar; b tagged foo;
c tagged bar,baz; d without a tags line. -/
def scenarioCorpus : List CorpusItem :=
  [("a", some ["foo", "bar"]), ("b", some ["foo"]),
   ("c", some ["bar", "baz"]), ("d", none)]

/-- The entrymap built from the scenario corpus with no ignored tags. -/
def scenarioEM : EntryMap := (buildIndex scenarioCorpus []).1

/-- The sorted tag list of the scenario. -/
def scenarioTags : List String := sortedTagsOf scenarioEM

/-- The triangular co-occurrence table of the scenario. -/
def scenarioTable : List (List (List String)) := create_folksonomy_table scenarioEM

theorem getD_set_self {α : Type} (l : List α) (i : Nat) (v d : α) (h : i < l.length) :
    (l.set i v).getD i d = v := by
  simp [List.getD_eq_getElem?_getD, List.getElem?_set, h]

theorem getD_set_ne {α : Type} (l : List α) (i j : Nat) (v d : α) (h : i ≠ j) :
    (l.set i v).getD j d = l.getD j d := by
  simp [List.getD_eq_getElem?_getD, List.getElem?_set, h]

theorem getD_replicate_default {α : Type} (n x : Nat) (d : α) :
    (List.replicate n d).getD x d = d := by
  rw [List.getD_eq_getElem?_getD, List.getElem?_replicate]
  split <;> rfl

theorem getD_map_range {α : Type} (f : Nat → α) (k y : Nat) (d : α) (h : y < k) :
    ((List.range k).map f).getD y d = f y := by
  rw [List.getD_eq_getElem?_getD, List.getElem?_map, List.getElem?_range h]
  rfl

theorem length_foldl_appendAt (g : Nat → List String) (idxs : List Nat) :
    ∀ t : List (List (List String)),
      (idxs.foldl (fun t x => tableAppendAt t x (g x)) t).length = t.length := by
  induction idxs with
  | nil => intro t; rfl
  | cons a rest ih =>
    intro t
    rw [List.foldl_cons, ih]
    simp [tableAppendAt]

theorem foldl_appendAt_getD (g : Nat → List String) :
    ∀ (k a : Nat) (t : List (List (List String))) (x : Nat), x < t.length →
      ((List.range' a k).foldl (fun t x => tableAppendAt t x (g x)) t).getD x [] =
        if a ≤ x ∧ x < a + k then t.getD x [] ++ [g x] else t.getD x [] := by
  intro k
  induction k with
  | zero =>
    intro a t x _
    rw [if_neg (by omega)]
    rfl
  | succ n ih =>
    intro a t x hx
    rw [List.range'_succ, List.foldl_cons]
    have ht' : x < (tableAppendAt t a (g a)).length := by
      simpa [tableAppendAt] using hx
    rw [ih (a + 1) _ x ht']
    by_cases hxa : x = a
    · subst hxa
      rw [if_neg (by omega), if_pos (by omega)]
      simp only [tableAppendAt]
      rw [getD_set_self t x (t.getD x [] ++ [g x]) [] hx]
    · have hgd : (tableAppendAt t a (g a)).getD x [] = t.getD x [] := by
        simp only [tableAppendAt]
        exact getD_set_ne t a x _ [] (fun h => hxa h.symm)
      rw [hgd]
      by_cases hc : a + 1 ≤ x ∧ x < a + 1 + n
      · rw [if_pos hc, if_pos (by omega)]
      · rw [if_neg hc, if_neg (by omega)]

theorem columnPass_length (cell : Nat → Nat → List String) (n y : Nat)
    (t : List (List (List String))) : (columnPass cell n y t).length = t.length :=
  length_foldl_appendAt (fun x => cell x y) (List.range' y (n - y)) t

theorem columnPass_getD (cell : Nat → Nat → List String) (n y : Nat)
    (t : List (List (List String))) (hn : t.length = n) (x : Nat) (hx : x < n)
    (hy : y ≤ n) :
    (columnPass cell n y t).getD x [] =
      if y ≤ x then t.getD x [] ++ [cell x y] else t.getD x [] := by
  unfold columnPass
  rw [foldl_appendAt_getD (fun x => cell x y) (n - y) y t x (by omega)]
  by_cases h : y ≤ x
  · rw [if_pos (by omega), if_pos h]
  · rw [if_neg (by omega), if_neg h]

theorem tableFold_length (cell : Nat → Nat → List String) (n : Nat) (ys : List Nat) :
    ∀ t : List (List (List String)),
      (ys.foldl (fun t y => columnPass cell n y t) t).length = t.length := by
  induction ys with
  | nil => intro t; rfl
  | cons a rest ih =>
    intro t
    rw [List.foldl_cons, ih, columnPass_length]

theorem tableFold_getD (cell : Nat → Nat → List String) (n : Nat) :
    ∀ m : Nat, m ≤ n → ∀ x, x < n →
      (((List.range m).foldl (fun t y => columnPass cell n y t)
          (List.replicate n [])).getD x [] =
        (List.range (min m (x + 1))).map (fun y => cell x y)) := by
  intro m
  induction m with
  | zero =>
    intro _ x _
    rw [List.range_zero, List.foldl_nil, getD_replicate_default]
    have : min 0 (x + 1) = 0 := by omega
    rw [this, List.range_zero, List.map_nil]
  | succ m ih =>
    intro hm x hx
    rw [List.range_succ, List.foldl_append, List.foldl_cons, List.foldl_nil]
    have hlen : ((List.range m).foldl (fun t y => columnPass cell n y t)
        (List.replicate n [])).length = n := by
      rw [tableFold_length, List.length_replicate]
    rw [columnPass_getD cell n m _ hlen x hx (by omega), ih (by omega) x hx]
    by_cases hmx : m ≤ x
    · rw [if_pos hmx]
      have h1 : min m (x + 1) = m := by omega
      have h2 : min (m + 1) (x + 1) = m + 1 := by omega
      rw [h1, h2, List.range_succ, List.map_append]
      rfl
    · rw [if_neg hmx]
      have : min m (x + 1) = min (m + 1) (x + 1) := by omega
      rw [this]

theorem create_folksonomy_table_getD (em : EntryMap) (x y : Nat)
    (hy : y ≤ x) (hx : x < (sortedTagsOf em).length) :
    ((create_folksonomy_table em).getD x []).getD y [] =
      tableCell em (sortedTagsOf em) x y := by
  unfold create_folksonomy_table
  rw [tableFold_getD _ _ _ (le_refl _) x hx]
  have hmin : min (sortedTagsOf em).length (x + 1) = x + 1 := by omega
  rw [hmin, getD_map_range _ _ _ _ (by omega)]

theorem mem_sortPairsDesc {a : Nat × String} {l : List (Nat × String)} (h : a ∈ l) :
    a ∈ sortPairsDesc l :=
  ((List.perm_insertionSort pairDesc l).mem_iff).mpr h

theorem sortPairsDesc_ne_nil {l : List (Nat × String)} (h : l ≠ []) :
    sortPairsDesc l ≠ [] := by
  intro h0
  unfold sortPairsDesc at h0
  have hp := List.perm_insertionSort pairDesc l
  rw [h0] at hp
  exact h hp.symm.eq_nil

theorem pyIndex_lt_length {a : String} :
    ∀ {l : List String}, a ∈ l → pyIndex a l < l.length := by
  intro l
  induction l with
  | nil => intro h; cases h
  | cons b bs ih =>
    intro h
    by_cases hb : b = a
    · simp [pyIndex, hb]
    · have hm : a ∈ bs := by
        rcases List.mem_cons.mp h with h1 | h1
        · exact absurd h1.symm hb
        · exact h1
      simp only [pyIndex, if_neg hb, List.length_cons]
      exact Nat.succ_lt_succ (ih hm)

theorem getD_pyIndex {a : String} :
    ∀ {l : List String}, a ∈ l → l.getD (pyIndex a l) "" = a := by
  intro l
  induction l with
  | nil => intro h; cases h
  | cons b bs ih =>
    intro h
    by_cases hb : b = a
    · simp [pyIndex, hb]
    · have hm : a ∈ bs := by
        rcases List.mem_cons.mp h with h1 | h1
        · exact absurd h1.symm hb
        · exact h1
      simp only [pyIndex, if_neg hb, List.getD_cons_succ]
      exact ih hm

/-- Claim C3: for all valid tag positions i and j the triangular lookup is
symmetric, shared(i,j) = shared(j,i), and it always re-derives the stored
triangular cell at row max(i,j) and column min(i,j), even though only the
cells with row at least column are stored. -/
theorem shared_lookup_symmetric (fol : List (List (List String))) (i j : Nat)
    (_hi : i < fol.length) (_hj : j < fol.length) :
    sharedLookup fol i j = sharedLookup fol j i ∧
    sharedLookup fol i j = (fol.getD (max i j) []).getD (min i j) [] := by
  unfold sharedLookup
  constructor
  · by_cases h : i ≤ j
    · by_cases h' : j ≤ i
      · have hij : i = j := le_antisymm h h'
        subst hij
        rfl
      · rw [if_pos h, if_neg h']
    · have h' : j ≤ i := le_of_not_le h
      rw [if_neg h, if_pos h']
  · by_cases h : i ≤ j
    · rw [if_pos h, max_eq_right h, min_eq_left h]
    · have h' : j ≤ i := le_of_not_le h
      rw [if_neg h, max_eq_left h', min_eq_right h']

/-- Witness for claim C3 on the scenario table, at positions 2 and 0. -/
theorem shared_lookup_symmetric_witness :
    sharedLookup scenarioTable 2 0 = sharedLookup scenarioTable 0 2 ∧
    sharedLookup scenarioTable 2 0 = (scenarioTable.getD (max 2 0) []).getD (min 2 0) [] :=
  shared_lookup_symmetric scenarioTable 2 0 (by decide) (by decide)

/-- Claim C4: in the table built from any TagIndex, for positions x >= y,
the diagonal cell is the full entry list of the tag at position x, and an
off-diagonal cell holds exactly the entries present under both tags. -/
theorem folksonomy_table_cells (em : EntryMap) (x y : Nat)
    (hy : y ≤ x) (hx : x < (sortedTagsOf em).length) :
    (x = y →
      ((create_folksonomy_table em).getD x []).getD y [] =
        lookupEM em ((sortedTagsOf em).getD x "")) ∧
    (y < x →
      ∀ e, e ∈ ((create_folksonomy_table em).getD x []).getD y [] ↔
        (e ∈ lookupEM em ((sortedTagsOf em).getD x "") ∧
         e ∈ lookupEM em ((sortedTagsOf em).getD y ""))) := by
  rw [create_folksonomy_table_getD em x y hy hx]
  constructor
  · intro hxy
    unfold tableCell
    rw [if_pos hxy]
  · intro hlt e
    unfold tableCell
    rw [if_neg (by omega)]
    unfold pySetInter
    simp [List.mem_filter, List.mem_dedup]

/-- Witness for claim C4: the diagonal cell at position 2 of the scenario
table is the bucket of the tag foo. -/
theorem folksonomy_table_cells_witness :
    ((create_folksonomy_table scenarioEM).getD 2 []).getD 2 [] =
      lookupEM scenarioEM ((sortedTagsOf scenarioEM).getD 2 "") :=
  (folksonomy_table_cells scenarioEM 2 2 (le_refl 2) (by decide)).1 rfl

/-- Claim C8 (code bug): on a corpus that yields zero tags the entrymap is
empty and min(map(len, entrymap.values())) raises an uncaught ValueError
(modelled by none); the build does not return an empty snapshot. -/
theorem empty_corpus_build_raises (ignoretags : List String) :
    create_folksonomy [] ignoretags = none := rfl

/-- Claim C9 counterexample: a single-tag related-stories lookup of a tag
absent from sortedtags returns an empty result but prints nothing, so the
condition is not reported for this lookup (the second component collects
the stderr lines). -/
theorem absent_tag_story_lookup_silent :
    (_get_related_stories "zzz" ["a"] [[["x"]]]).2 = [] := by decide

/-- Claim C9 amended: for a tag absent from sortedtags both single-tag
lookups return an empty result and neither fails; the related-tags lookup
additionally reports the condition on stderr while the related-stories
lookup stays silent. -/
theorem absent_tag_lookups (tag : String) (sortedtags : List String)
    (folksonomy : List (List (List String))) (h : tag ∉ sortedtags) :
    _get_related_tags tag sortedtags folksonomy =
      ([], ["ERROR: " ++ tag ++ " not in sortedtags."]) ∧
    _get_related_stories tag sortedtags folksonomy = ([], []) := by
  unfold _get_related_tags _get_related_stories
  rw [if_neg h, if_neg h]
  exact ⟨rfl, rfl⟩

/-- Witness for claim C9 at a concrete absent tag. -/
theorem absent_tag_lookups_witness :
    _get_related_tags "ww" ["b"] [[["y"]]] =
      ([], ["ERROR: " ++ "ww" ++ " not in sortedtags."]) ∧
    _get_related_stories "ww" ["b"] [[["y"]]] = ([], []) :=
  absent_tag_lookups "ww" ["b"] [[["y"]]] (by decide)

/-- Claim C1 counterexample: on the scenario corpus the related-tags
result for entry a is not empty, against the expected empty list. -/
theorem scenario_related_tags_nonempty :
    (get_related_tags ["foo", "bar"] [] scenarioTags scenarioTable).1 ≠ [] := by decide

/-- Claim C1 amended: on the scenario corpus the related-tags result for
entry a is [foo, bar]: the loop of the single-tag helper also reads the
diagonal cell, so each of the two subject tags contributes itself with
count 2 (its own bucket size), and only those survive the count > 1
filter, while the cross candidates bar-via-foo and foo-via-bar keep count
1 and are filtered out. -/
theorem scenario_related_tags_value :
    (get_related_tags ["foo", "bar"] [] scenarioTags scenarioTable).1 = ["foo", "bar"] := by
  decide

theorem relatedTagsStep_mono (ig st : List String) (fol : List (List (List String)))
    (p : Nat × String) :
    ∀ (l : List String) (acc : List (Nat × String) × List String), p ∈ acc.1 →
      p ∈ (l.foldl (relatedTagsStep ig st fol) acc).1 := by
  intro l
  induction l with
  | nil => intro acc h; exact h
  | cons a rest ih =>
    intro acc h
    rw [List.foldl_cons]
    apply ih
    simp only [relatedTagsStep]
    split
    · exact h
    · split
      · exact List.mem_append.mpr (Or.inl h)
      · exact h

theorem relatedTagsStep_hit (ig st : List String) (fol : List (List (List String)))
    (p : Nat × String) (tag : String) :
    ∀ (l : List String) (acc : List (Nat × String) × List String),
      tag ∈ l → tag ∉ ig → p ∈ (_get_related_tags tag st fol).1 →
      p ∈ (l.foldl (relatedTagsStep ig st fol) acc).1 := by
  intro l
  induction l with
  | nil => intro acc h; cases h
  | cons a rest ih =>
    intro acc hmem hig hp
    rw [List.foldl_cons]
    rcases List.mem_cons.mp hmem with h1 | h1
    · subst h1
      apply relatedTagsStep_mono
      simp only [relatedTagsStep]
      rw [if_neg hig, if_pos (List.ne_nil_of_mem hp)]
      exact List.mem_append.mpr (Or.inr hp)
    · exact ih _ h1 hig hp

/-- Claim C10: for every tag of the index with a nonempty bucket, the
single-tag related ranking includes the pair (bucket size, tag) itself,
because the loop over sortedtags also reads the diagonal cell;
consequently the entry-level related-tags aggregate contains each
non-ignored subject tag whose bucket holds more than one entry. -/
theorem related_tags_diagonal (em : EntryMap) (tag : String)
    (htag : tag ∈ sortedTagsOf em) (hne : lookupEM em tag ≠ []) :
    ((lookupEM em tag).length, tag) ∈
      (_get_related_tags tag (sortedTagsOf em) (create_folksonomy_table em)).1 ∧
    (∀ entryTags ignoretags, tag ∈ entryTags → tag ∉ ignoretags →
      1 < (lookupEM em tag).length →
      tag ∈ (get_related_tags entryTags ignoretags (sortedTagsOf em)
        (create_folksonomy_table em)).1) := by
  have hidx : pyIndex tag (sortedTagsOf em) < (sortedTagsOf em).length :=
    pyIndex_lt_length htag
  have hdiag : sharedLookup (create_folksonomy_table em)
      (pyIndex tag (sortedTagsOf em)) (pyIndex tag (sortedTagsOf em)) =
      lookupEM em tag := by
    unfold sharedLookup
    rw [if_pos (le_refl _), create_folksonomy_table_getD em _ _ (le_refl _) hidx]
    unfold tableCell
    rw [if_pos rfl, getD_pyIndex htag]
  have hmem1 : ((lookupEM em tag).length, tag) ∈
      (_get_related_tags tag (sortedTagsOf em) (create_folksonomy_table em)).1 := by
    simp only [_get_related_tags]
    rw [if_pos htag]
    apply mem_sortPairsDesc
    apply List.mem_filterMap.mpr
    refine ⟨tag, htag, ?_⟩
    simp only [hdiag]
    rw [if_pos hne]
  refine ⟨hmem1, ?_⟩
  intro entryTags ig hmemT hnig hcount
  simp only [get_related_tags]
  apply List.mem_map.mpr
  refine ⟨((lookupEM em tag).length, tag), ?_, rfl⟩
  apply List.mem_filter.mpr
  refine ⟨?_, by simpa using hcount⟩
  exact mem_sortPairsDesc (relatedTagsStep_hit ig (sortedTagsOf em) _ _ tag
    entryTags ([], []) hmemT hnig hmem1)

/-- Witness for claim C10 at the scenario tag foo, whose bucket holds the
two entries a and b. -/
theorem related_tags_diagonal_witness :
    (2, "foo") ∈ (_get_related_tags "foo" scenarioTags scenarioTable).1 ∧
    "foo" ∈ (get_related_tags ["foo", "bar"] [] scenarioTags scenarioTable).1 := by
  have h := related_tags_diagonal scenarioEM "foo" (by decide) (by decide)
  exact ⟨h.1, h.2 ["foo", "bar"] [] (by decide) (by decide) (by decide)⟩

/-- Modelled from the spec: the descending threshold list of the cloud
builder contract, evaluated from the top downward with the first match
winning, from count equal to the maximum down to count equal to the
minimum.  Counts below the minimum are outside the stated partition. -/
def specSizeClass (count mincount maxcount distribution : Int) : String :=
  if count = maxcount then "mostHugeTag"
  else if count > mincount + 5 * distribution then "hugestTag"
  else if count > mincount + 4 * distribution then "hugeTag"
  else if count > mincount + 3 * distribution then "biggestTag"
  else if count > mincount + 2 * distribution then "bigTag"
  else if count > mincount + 1 * distribution then "mediumTag"
  else if count > mincount then "smallTag"
  else if count = mincount then "smallestTag"
  else "unspecified"

/-- A concrete occurrence map with bucket sizes 1, 1, 2, 5, 9 and 9, the
distribution of the threshold-partition test of the spec. -/
def cloudSix : EntryMap :=
  [("t1", ["e"]), ("u1", ["e"]), ("v", ["e", "f"]),
   ("w", ["a", "b", "c", "d", "e"]), ("x", List.replicate 9 "e"),
   ("y", List.replicate 9 "e")]

/-- Claim C6: the reserved untagged tag is always assigned the middle
class regardless of count; every other tag with a count at least the
minimum is classed by the descending threshold chain of the spec with the
first match winning; and on the counts 1, 1, 2, 5, 9, 9 with minimum 1
and maximum 9 the count-9 tags get mostHuge and the count-1 tags get
smallest. -/
theorem tagcloud_size_classes :
    (∀ count mincount maxcount distribution : Int,
      tag_size "untagged" count mincount maxcount distribution = "mediumTag") ∧
    (∀ (tag : String) (count mincount maxcount distribution : Int),
      tag ≠ "untagged" → mincount ≤ count →
      tag_size tag count mincount maxcount distribution =
        specSizeClass count mincount maxcount distribution) ∧
    create_tagcloud cloudSix 1 9 =
      some [("t1", 1, "smallestTag"), ("u1", 1, "smallestTag"), ("v", 2, "smallTag"),
        ("w", 5, "biggestTag"), ("x", 9, "mostHugeTag"), ("y", 9, "mostHugeTag")] := by
  refine ⟨?_, ?_, by decide⟩
  · intro c mn mx d
    simp [tag_size]
  · intro tag c mn mx d htag hmc
    simp only [tag_size, specSizeClass, if_pos htag]
    have e5 : mn + 5 * d = mn + d * 5 := by ring
    have e4 : mn + 4 * d = mn + d * 4 := by ring
    have e3 : mn + 3 * d = mn + d * 3 := by ring
    have e2 : mn + 2 * d = mn + d * 2 := by ring
    have e1 : mn + 1 * d = mn + d := by ring
    rw [e5, e4, e3, e2, e1]
    split_ifs <;> first | rfl | omega

/-- Witness for claim C6: the tag w with count 5 between minimum 1 and
maximum 9 is classed by the spec threshold chain (both give biggestTag). -/
theorem tagcloud_size_classes_witness :
    tag_size "w" 5 1 9 1 = specSizeClass 5 1 9 1 :=
  tagcloud_size_classes.2.1 "w" 5 1 9 1 (by decide) (by decide)

theorem popularFold_aux (mincount maxcount : Int) :
    ∀ (l : EntryMap) (acc : EntryMap × Int),
      l.foldl (fun (st : EntryMap × Int) p =>
          if mincount + (maxcount - mincount).fdiv 6 < (p.2.length : Int) then
            (st.1 ++ [p], min st.2 (p.2.length : Int))
          else st) acc =
        (acc.1 ++ l.filter (fun p =>
            decide (mincount + (maxcount - mincount).fdiv 6 < (p.2.length : Int))),
         ((l.filter (fun p =>
            decide (mincount + (maxcount - mincount).fdiv 6 < (p.2.length : Int)))).map
              (fun p => (p.2.length : Int))).foldl min acc.2) := by
  intro l
  induction l with
  | nil => intro acc; simp
  | cons p rest ih =>
    intro acc
    rw [List.foldl_cons, List.filter_cons]
    by_cases hp : mincount + (maxcount - mincount).fdiv 6 < (p.2.length : Int)
    · rw [if_pos hp, ih, if_pos (by simpa using hp)]
      simp
    · rw [if_neg hp, ih, if_neg (by simpa using hp)]

theorem popularFold_eq (tagcount : EntryMap) (mincount maxcount : Int) :
    popularFold tagcount mincount maxcount =
      (tagcount.filter (fun p =>
          decide (mincount + (maxcount - mincount).fdiv 6 < (p.2.length : Int))),
       ((tagcount.filter (fun p =>
          decide (mincount + (maxcount - mincount).fdiv 6 < (p.2.length : Int)))).map
            (fun p => (p.2.length : Int))).foldl min maxcount) := by
  unfold popularFold
  rw [popularFold_aux mincount maxcount tagcount ([], maxcount)]
  rfl

theorem lt_foldl_min (mn : Int) :
    ∀ (l : List Int) (mx : Int), mn < mx → (∀ c ∈ l, mn < c) →
      mn < l.foldl min mx := by
  intro l
  induction l with
  | nil => intro mx h _; exact h
  | cons c rest ih =>
    intro mx h hall
    rw [List.foldl_cons]
    exact ih (min mx c) (lt_min h (hall c (List.mem_cons.mpr (Or.inl rfl))))
      (fun d hd => hall d (List.mem_cons.mpr (Or.inr hd)))

/-- Claim C7: the popular cloud is built from exactly the buckets whose
count is strictly above mincount plus the distribution, with a minimum
recomputed over the survivors; every tag of the popular cloud appears in
the full cloud; with mincount and maxcount bounding the counts, the
recomputed minimum is strictly above mincount whenever a survivor exists;
and with no survivor the popular cloud is absent. -/
theorem popular_tagcloud_inclusion (tagcount : EntryMap) (mincount maxcount : Int) :
    (popularFold tagcount mincount maxcount).1 =
      tagcount.filter (fun p =>
        decide (mincount + (maxcount - mincount).fdiv 6 < (p.2.length : Int))) ∧
    ((popularFold tagcount mincount maxcount).1 = [] →
      create_popular_tagcloud tagcount mincount maxcount = none) ∧
    (∀ pl, create_popular_tagcloud tagcount mincount maxcount = some pl →
      ∀ q ∈ pl, ∃ fl, create_tagcloud tagcount mincount maxcount = some fl ∧
        q.1 ∈ fl.map Prod.fst) ∧
    (mincount ≤ maxcount → (∀ p ∈ tagcount, (p.2.length : Int) ≤ maxcount) →
      (popularFold tagcount mincount maxcount).1 ≠ [] →
      mincount < (popularFold tagcount mincount maxcount).2) := by
  refine ⟨congrArg Prod.fst (popularFold_eq tagcount mincount maxcount), ?_, ?_, ?_⟩
  · intro h
    unfold create_popular_tagcloud create_tagcloud
    rw [h]
    simp
  · intro pl hpl q hq
    unfold create_popular_tagcloud create_tagcloud at hpl
    by_cases hne : (popularFold tagcount mincount maxcount).1 ≠ []
    · rw [if_pos hne] at hpl
      have hpl' := Option.some.inj hpl
      subst hpl'
      rcases List.mem_map.mp hq with ⟨p, hp, hq'⟩
      have hpf : p ∈ tagcount := by
        have h1 := congrArg Prod.fst (popularFold_eq tagcount mincount maxcount)
        rw [h1] at hp
        exact (List.mem_filter.mp hp).1
      have htc : tagcount ≠ [] := List.ne_nil_of_mem hpf
      refine ⟨tagcount.map (fun p =>
        (p.1, ((p.2.length : Int),
          tag_size p.1 (p.2.length : Int) mincount maxcount
            ((maxcount - mincount).fdiv 6)))), ?_, ?_⟩
      · unfold create_tagcloud
        rw [if_pos htc]
      · apply List.mem_map.mpr
        refine ⟨(p.1, ((p.2.length : Int),
          tag_size p.1 (p.2.length : Int) mincount maxcount
            ((maxcount - mincount).fdiv 6))), ?_, ?_⟩
        · exact List.mem_map.mpr ⟨p, hpf, rfl⟩
        · rw [← hq']
    · rw [if_neg hne] at hpl
      cases hpl
  · intro hmn hbound hne
    have h1 := popularFold_eq tagcount mincount maxcount
    have hd : (0 : Int) ≤ (maxcount - mincount).fdiv 6 :=
      Int.fdiv_nonneg (by omega) (by omega)
    rw [h1] at hne ⊢
    simp only at hne ⊢
    rcases List.exists_mem_of_ne_nil _ hne with ⟨p0, hp0⟩
    have hp0' := List.mem_filter.mp hp0
    have hp0c : mincount + (maxcount - mincount).fdiv 6 < (p0.2.length : Int) := by
      simpa using hp0'.2
    have hmx : mincount < maxcount :=
      lt_of_lt_of_le (by omega) (hbound p0 hp0'.1)
    apply lt_foldl_min
    · exact hmx
    · intro c hc
      rcases List.mem_map.mp hc with ⟨p, hp, hc'⟩
      have hpfil := List.mem_filter.mp hp
      have : mincount + (maxcount - mincount).fdiv 6 < (p.2.length : Int) := by
        simpa using hpfil.2
      omega

/-- Witness for claim C7 on the concrete occurrence map with counts
1, 1, 2, 5, 9, 9: the survivors are w, x and y and the recomputed
minimum 5 is strictly above the full-cloud minimum 1. -/
theorem popular_tagcloud_inclusion_witness :
    (1 : Int) < (popularFold cloudSix 1 9).2 :=
  (popular_tagcloud_inclusion cloudSix 1 9).2.2.2 (by decide) (by decide) (by decide)

theorem take_min_six {α : Type} (l : List α) : l.take (min l.length 6) = l.take 6 := by
  rcases Nat.le_total l.length 6 with h | h
  · rw [Nat.min_eq_left h, List.take_length, List.take_of_length_le h]
  · rw [Nat.min_eq_right h]

/-- Modelled from the spec: the related-stories result starts with the
forced relations of the subject in their listed order, appends the
computed stories ranked by descending vote count, truncates the combined
list to at most 6 entries, and only then removes the subject itself, with
no backfilling; nothing is returned when nothing remains. -/
def relatedStoriesSpec (forced ranked : List String) (selfFilename : String) :
    Option (List String) :=
  let shown := ((forced ++ ranked).take 6).filter (fun l => l ≠ selfFilename)
  if shown ≠ [] then some shown else none

/-- Claim C2 amended: whenever at least one vote is computed, the
related-stories result is exactly the spec shape: forced relations first,
then the computed stories sorted by descending vote count (ties on the
story key, descending), truncated to 6 before the subject is removed; the
ranking is sorted for the descending pair order and is a permutation of
the vote values.  The counterexample theorem shows the claim fails as
stated when no vote is computed. -/
theorem related_stories_shape (entryTags : List String)
    (relatedMeta : Option (List String)) (entryFilename : String)
    (ignoretags : List String) (datadir : String) (sortedtags : List String)
    (folksonomy : List (List (List String)))
    (hvotes : relatedVotes entryTags ignoretags sortedtags folksonomy ≠ []) :
    get_related_stories entryTags relatedMeta entryFilename ignoretags datadir
        sortedtags folksonomy =
      relatedStoriesSpec
        ((relatedMeta.getD []).map (fun location => datadir ++ "/" ++ location))
        ((sortPairsDesc ((relatedVotes entryTags ignoretags sortedtags folksonomy).map
          (fun p => p.2))).map (fun r => r.2))
        entryFilename ∧
    List.Sorted pairDesc
      (sortPairsDesc ((relatedVotes entryTags ignoretags sortedtags folksonomy).map
        (fun p => p.2))) ∧
    (sortPairsDesc ((relatedVotes entryTags ignoretags sortedtags folksonomy).map
      (fun p => p.2))).Perm
      ((relatedVotes entryTags ignoretags sortedtags folksonomy).map (fun p => p.2)) := by
  refine ⟨?_, List.sorted_insertionSort pairDesc _, List.perm_insertionSort pairDesc _⟩
  have hvals : (relatedVotes entryTags ignoretags sortedtags folksonomy).map
      (fun p => p.2) ≠ [] := by
    intro h0
    exact hvotes (List.map_eq_nil_iff.mp h0)
  have hsortne : sortPairsDesc ((relatedVotes entryTags ignoretags sortedtags
      folksonomy).map (fun p => p.2)) ≠ [] := sortPairsDesc_ne_nil hvals
  cases relatedMeta with
  | none =>
    simp only [get_related_stories, relatedStoriesSpec, Option.getD_none, List.map_nil]
    rw [if_pos hvotes, take_min_six]
    have htake : (([] : List String) ++ (sortPairsDesc ((relatedVotes entryTags
        ignoretags sortedtags folksonomy).map (fun p => p.2))).map
          (fun r => r.2)).take 6 ≠ [] := by
      intro h0
      rcases List.take_eq_nil_iff.mp h0 with h | h
      · cases h
      · rcases List.append_eq_nil.mp h with ⟨_, h2⟩
        exact hsortne (List.map_eq_nil_iff.mp h2)
    rw [if_pos htake]
  | some fr =>
    simp only [get_related_stories, relatedStoriesSpec, Option.getD_some]
    rw [if_pos hvotes, take_min_six]
    have htake : (fr.map (fun location => datadir ++ "/" ++ location) ++
        (sortPairsDesc ((relatedVotes entryTags ignoretags sortedtags
          folksonomy).map (fun p => p.2))).map (fun r => r.2)).take 6 ≠ [] := by
      intro h0
      rcases List.take_eq_nil_iff.mp h0 with h | h
      · cases h
      · rcases List.append_eq_nil.mp h with ⟨_, h2⟩
        exact hsortne (List.map_eq_nil_iff.mp h2)
    rw [if_pos htake]

/-- Claim C2 counterexample: a subject whose only tag is ignored computes
no votes, and then the source returns None although a forced relation is
present, so the result does not begin with the forced entry. -/
theorem forced_relation_dropped :
    get_related_stories ["t"] (some ["Y"]) "X" ["t"] "dd" ["t"] [[["X"]]] = none := by
  decide

/-- Witness for claim C2 on the scenario corpus: entry a with a forced
relation x computes votes, and the result has the spec shape. -/
theorem related_stories_shape_witness :
    relatedVotes ["foo", "bar"] [] scenarioTags scenarioTable ≠ [] ∧
    get_related_stories ["foo", "bar"] (some ["x"]) "a" [] "dd" scenarioTags
        scenarioTable =
      relatedStoriesSpec
        (((some ["x"]).getD []).map (fun location => "dd" ++ "/" ++ location))
        ((sortPairsDesc ((relatedVotes ["foo", "bar"] [] scenarioTags
          scenarioTable).map (fun p => p.2))).map (fun r => r.2))
        "a" :=
  ⟨by decide,
   (related_stories_shape ["foo", "bar"] (some ["x"]) "a" [] "dd" scenarioTags
     scenarioTable (by decide)).1⟩

theorem addEntry_cons_eq (p : String × List String) (ps : EntryMap) (tag loc : String)
    (h : p.1 = tag) : addEntry (p :: ps) tag loc = (p.1, p.2 ++ [loc]) :: ps := by
  unfold addEntry
  have hany : (p :: ps).any (fun q => q.1 == tag) = true := by
    simp [List.any_cons, h]
  rw [if_pos hany]
  simp only [updateBucket]
  rw [if_pos h]

theorem addEntry_cons_ne (p : String × List String) (ps : EntryMap) (tag loc : String)
    (h : p.1 ≠ tag) : addEntry (p :: ps) tag loc = p :: addEntry ps tag loc := by
  unfold addEntry
  have hbeq : (p.1 == tag) = false := by simp [h]
  by_cases hc : ps.any (fun q => q.1 == tag) = true
  · have hany : (p :: ps).any (fun q => q.1 == tag) = true := by
      simp [List.any_cons, hc]
    rw [if_pos hany, if_pos hc]
    simp only [updateBucket]
    rw [if_neg h]
  · have hany : ¬ ((p :: ps).any (fun q => q.1 == tag) = true) := by
      simp only [List.any_cons, hbeq, Bool.false_or]
      exact hc
    rw [if_neg hany, if_neg hc, List.cons_append]
    simp only [updateBucket]
    rw [if_neg h]

theorem lookupEM_addEntry (em : EntryMap) (tag loc t : String) :
    lookupEM (addEntry em tag loc) t =
      if t = tag then lookupEM em tag ++ [loc] else lookupEM em t := by
  induction em with
  | nil =>
    by_cases ht : t = tag
    · subst ht
      simp [addEntry, updateBucket, lookupEM]
    · have htt : tag ≠ t := fun hh => ht hh.symm
      simp [addEntry, updateBucket, lookupEM, ht, htt]
  | cons p ps ih =>
    by_cases hp : p.1 = tag
    · rw [addEntry_cons_eq p ps tag loc hp]
      by_cases ht : t = tag
      · subst ht
        simp [lookupEM, hp]
      · have hpt : p.1 ≠ t := fun hh => ht (hh ▸ hp)
        simp [lookupEM, ht, hpt]
    · rw [addEntry_cons_ne p ps tag loc hp]
      by_cases hpt : p.1 = t
      · have ht : t ≠ tag := fun hh => hp (hpt.trans hh)
        simp [lookupEM, hpt, ht]
      · by_cases ht : t = tag
        · subst ht
          simp [lookupEM, hpt, ih]
        · simp [lookupEM, hpt, ht, ih]

theorem count_addEntry_other (em : EntryMap) (tag loc t l : String) (h : l ≠ loc) :
    (lookupEM (addEntry em tag loc) t).count l = (lookupEM em t).count l := by
  rw [lookupEM_addEntry]
  by_cases ht : t = tag
  · subst ht
    rw [if_pos rfl, List.count_append]
    have hlc : loc ≠ l := fun hh => h hh.symm
    have hb : (loc == l) = false := by simp [hlc]
    have h0 : List.count l [loc] = 0 := by
      rw [List.count_singleton, hb]
      rfl
    rw [h0, Nat.add_zero]
  · rw [if_neg ht]

theorem count_processItem_other (ig : List String) (st : EntryMap × Nat)
    (item : CorpusItem) (l : String) (h : l ≠ item.1) (t : String) :
    (lookupEM (processItem ig st item).1 t).count l =
      (lookupEM st.1 t).count l := by
  rcases item with ⟨loc, otags⟩
  cases otags with
  | none =>
    simp only [processItem]
    exact count_addEntry_other st.1 "untagged" loc t l h
  | some tags =>
    have hl : l ≠ loc := h
    clear h
    simp only [processItem]
    induction tags generalizing st with
    | nil => rfl
    | cons a rest ih =>
      simp only [List.foldl_cons]
      by_cases ha : a ∈ ig
      · rw [if_pos ha]
        exact ih st
      · rw [if_neg ha]
        rw [ih ((addEntry st.1 a loc), max st.2 (lookupEM (addEntry st.1 a loc) a).length)]
        exact count_addEntry_other st.1 a loc t l hl

theorem count_foldIndex_other (ig : List String) (l : String) :
    ∀ items : List CorpusItem, (∀ it ∈ items, it.1 ≠ l) →
      ∀ (st : EntryMap × Nat) (t : String),
        (lookupEM (items.foldl (processItem ig) st).1 t).count l =
          (lookupEM st.1 t).count l := by
  intro items
  induction items with
  | nil => intro _ st t; rfl
  | cons it rest ih =>
    intro h st t
    rw [List.foldl_cons]
    rw [ih (fun x hx => h x (List.mem_cons.mpr (Or.inr hx))) _ t]
    exact count_processItem_other ig st it l
      (fun hh => h it (List.mem_cons.mpr (Or.inl rfl)) hh.symm) t

theorem count_processItem_none (ig : List String) (st : EntryMap × Nat) (loc : String) :
    (lookupEM (processItem ig st (loc, none)).1 "untagged").count loc =
      (lookupEM st.1 "untagged").count loc + 1 ∧
    ∀ t, t ≠ "untagged" →
      (lookupEM (processItem ig st (loc, none)).1 t).count loc =
        (lookupEM st.1 t).count loc := by
  constructor
  · simp only [processItem]
    rw [lookupEM_addEntry, if_pos rfl, List.count_append]
    have h1 : List.count loc [loc] = 1 := by
      rw [List.count_singleton]
      simp
    rw [h1]
  · intro t ht
    simp only [processItem]
    rw [lookupEM_addEntry, if_neg ht]

theorem processItem_all_ignored (ig : List String) (loc : String) :
    ∀ tags : List String, (∀ tg ∈ tags, tg ∈ ig) →
      ∀ st : EntryMap × Nat, processItem ig st (loc, some tags) = st := by
  intro tags
  induction tags with
  | nil => intro _ st; rfl
  | cons a rest ih =>
    intro h st
    simp only [processItem, List.foldl_cons]
    rw [if_pos (h a (List.mem_cons.mpr (Or.inl rfl)))]
    exact ih (fun tg htg => h tg (List.mem_cons.mpr (Or.inr htg))) st

/-- Claim C5 amended: an item without a tags line is filed exactly once,
under the reserved untagged bucket, and nowhere else (assuming distinct
entry locations across the corpus); but an item whose declared tags are
all in ignoretags is dropped from the index entirely and is not filed
under untagged, against the claim as stated. -/
theorem untagged_filing (corpus : List CorpusItem) (ignoretags : List String)
    (loc : String) (hnodup : (corpus.map Prod.fst).Nodup) :
    ((loc, none) ∈ corpus →
      (lookupEM (buildIndex corpus ignoretags).1 "untagged").count loc = 1 ∧
      ∀ t, t ≠ "untagged" → loc ∉ lookupEM (buildIndex corpus ignoretags).1 t) ∧
    (∀ tags, (loc, some tags) ∈ corpus → (∀ tg ∈ tags, tg ∈ ignoretags) →
      ∀ t, loc ∉ lookupEM (buildIndex corpus ignoretags).1 t) := by
  constructor
  · intro hmem
    obtain ⟨s, t2, rfl⟩ := List.append_of_mem hmem
    rw [List.map_append, List.map_cons] at hnodup
    have hnd := List.nodup_append.mp hnodup
    have hs : ∀ it ∈ s, it.1 ≠ loc := by
      intro it hit hh
      exact hnd.2.2 (List.mem_map.mpr ⟨it, hit, hh⟩) (List.mem_cons.mpr (Or.inl rfl))
    have ht2 : ∀ it ∈ t2, it.1 ≠ loc := by
      intro it hit hh
      exact (List.nodup_cons.mp hnd.2.1).1 (List.mem_map.mpr ⟨it, hit, hh⟩)
    unfold buildIndex
    rw [List.foldl_append, List.foldl_cons]
    have hzero : ∀ tg,
        (lookupEM (s.foldl (processItem ignoretags) ([], 0)).1 tg).count loc = 0 := by
      intro tg
      rw [count_foldIndex_other ignoretags loc s hs ([], 0) tg]
      rfl
    have hitem := count_processItem_none ignoretags
      (s.foldl (processItem ignoretags) ([], 0)) loc
    constructor
    · rw [count_foldIndex_other ignoretags loc t2 ht2 _ "untagged", hitem.1,
        hzero "untagged"]
    · intro t ht
      have hc : (lookupEM (t2.foldl (processItem ignoretags)
          (processItem ignoretags (s.foldl (processItem ignoretags) ([], 0))
            (loc, none))).1 t).count loc = 0 := by
        rw [count_foldIndex_other ignoretags loc t2 ht2 _ t, hitem.2 t ht, hzero t]
      exact List.count_eq_zero.mp hc
  · intro tags hmem hall t
    obtain ⟨s, t2, rfl⟩ := List.append_of_mem hmem
    rw [List.map_append, List.map_cons] at hnodup
    have hnd := List.nodup_append.mp hnodup
    have hs : ∀ it ∈ s, it.1 ≠ loc := by
      intro it hit hh
      exact hnd.2.2 (List.mem_map.mpr ⟨it, hit, hh⟩) (List.mem_cons.mpr (Or.inl rfl))
    have ht2 : ∀ it ∈ t2, it.1 ≠ loc := by
      intro it hit hh
      exact (List.nodup_cons.mp hnd.2.1).1 (List.mem_map.mpr ⟨it, hit, hh⟩)
    unfold buildIndex
    rw [List.foldl_append, List.foldl_cons,
      processItem_all_ignored ignoretags loc tags hall _]
    have hc : (lookupEM (t2.foldl (processItem ignoretags)
        (s.foldl (processItem ignoretags) ([], 0))).1 t).count loc = 0 := by
      rw [count_foldIndex_other ignoretags loc t2 ht2 _ t,
        count_foldIndex_other ignoretags loc s hs ([], 0) t]
      rfl
    exact List.count_eq_zero.mp hc

/-- Claim C5 counterexample: an item whose only declared tag is ignored is
indexed nowhere: the whole index stays empty, so in particular the item
is not filed under the reserved untagged bucket. -/
theorem ignored_item_not_untagged :
    (buildIndex [("e1", some ["x"])] ["x"]).1 = [] := by decide

/-- Witness for claim C5 on the scenario corpus: the entry d, which has no
tags line, is filed exactly once under untagged and not under foo. -/
theorem untagged_filing_witness :
    (lookupEM (buildIndex scenarioCorpus []).1 "untagged").count "d" = 1 ∧
    "d" ∉ lookupEM (buildIndex scenarioCorpus []).1 "foo" := by
  have h := (untagged_filing scenarioCorpus [] "d" (by decide)).1 (by decide)
  exact ⟨h.1, h.2 "foo" (by decide)⟩
